import Mathlib

/-!
Shallow embedding of `sphinxcontrib/openapi/schema_utils.py`.

JSON-like values (parsed OpenAPI documents and schemas) are modelled by
`Value`: mappings are insertion-ordered association lists with string keys
(the keys of parsed JSON/YAML mappings are strings), Python `int` by `Int`,
Python `float` by `Rat` (float arithmetic is modelled as exact rational
arithmetic), and Python exceptions by `Except Err`.  Recursive functions of
the source that can diverge on cyclic documents take an explicit fuel
argument; running out of fuel is the distinguished error `Err.fuelOut`.
-/

inductive Value where
  | null : Value
  | bool (b : Bool) : Value
  | int (n : Int) : Value
  | float (q : Rat) : Value
  | str (s : String) : Value
  | arr (elems : List Value) : Value
  | obj (fields : List (String × Value)) : Value
deriving Repr

mutual

/-- Structural boolean equality on `Value` (Python `==` on parsed JSON data). -/
def Value.beq : Value → Value → Bool
  | .null, .null => true
  | .bool a, .bool b => decide (a = b)
  | .int a, .int b => decide (a = b)
  | .float a, .float b => decide (a = b)
  | .str a, .str b => decide (a = b)
  | .arr xs, .arr ys => Value.beqList xs ys
  | .obj xs, .obj ys => Value.beqFields xs ys
  | _, _ => false

/-- Elementwise `Value.beq` on lists. -/
def Value.beqList : List Value → List Value → Bool
  | [], [] => true
  | x :: xs, y :: ys => Value.beq x y && Value.beqList xs ys
  | _, _ => false

/-- Elementwise `Value.beq` on association lists. -/
def Value.beqFields : List (String × Value) → List (String × Value) → Bool
  | [], [] => true
  | (k1, v1) :: xs, (k2, v2) :: ys =>
      decide (k1 = k2) && Value.beq v1 v2 && Value.beqFields xs ys
  | _, _ => false

end

theorem Value.beq_iff_eq : ∀ (a b : Value), (Value.beq a b = true) ↔ a = b := by
  have H : ∀ (n : Nat) (a b : Value), sizeOf a ≤ n → ((Value.beq a b = true) ↔ a = b) := by
    intro n
    induction n with
    | zero =>
      intro a b h
      exfalso
      cases a <;> simp_arith at h
    | succ n ih =>
      have harr : ∀ (xs ys : List Value), sizeOf xs ≤ n →
          ((Value.beqList xs ys = true) ↔ xs = ys) := by
        intro xs
        induction xs with
        | nil => intro ys h; cases ys <;> simp [Value.beqList]
        | cons x rest ihl =>
          intro ys h
          cases ys with
          | nil => simp [Value.beqList]
          | cons y rest2 =>
            have h1 : sizeOf x ≤ n := by simp_arith at h; omega
            have h2 : sizeOf rest ≤ n := by simp_arith at h; omega
            simp [Value.beqList, Bool.and_eq_true, ih x y h1, ihl rest2 h2]
      have hfld : ∀ (xs ys : List (String × Value)), sizeOf xs ≤ n →
          ((Value.beqFields xs ys = true) ↔ xs = ys) := by
        intro xs
        induction xs with
        | nil => intro ys h; cases ys <;> simp [Value.beqFields]
        | cons x rest ihl =>
          intro ys h
          cases ys with
          | nil => simp [Value.beqFields]
          | cons y rest2 =>
            obtain ⟨k1, v1⟩ := x
            obtain ⟨k2, v2⟩ := y
            have h1 : sizeOf v1 ≤ n := by simp_arith at h; omega
            have h2 : sizeOf rest ≤ n := by simp_arith at h; omega
            simp [Value.beqFields, Bool.and_eq_true, ih v1 v2 h1, ihl rest2 h2]
      intro a b h
      cases a <;> cases b <;> simp [Value.beq]
      case arr.arr xs ys =>
        exact harr xs ys (by simp_arith at h; omega)
      case obj.obj xs ys =>
        exact hfld xs ys (by simp_arith at h; omega)
  intro a b
  exact H (sizeOf a) a b le_rfl

instance : DecidableEq Value := fun a b => decidable_of_iff _ (Value.beq_iff_eq a b)

/-- Error kinds of the Python exceptions the module can raise. -/
inductive Err where
  | keyError (k : String) : Err
  | typeError : Err
  | valueError : Err
  | indexError : Err
  | assertError : Err
  | notImplemented : Err
  | pointerError : Err
  | fuelOut : Err
deriving DecidableEq, Repr

deriving instance DecidableEq for Except

/-- First-match association-list lookup: Python `d[k]` / `d.get(k)` on a dict. -/
def vlookup (fs : List (String × Value)) (k : String) : Option Value :=
  match fs with
  | [] => none
  | (k0, v0) :: rest => if k0 = k then some v0 else vlookup rest k

/-- Python `k in d` on a dict. -/
def hasKey (fs : List (String × Value)) (k : String) : Bool :=
  (vlookup fs k).isSome

/-- Python `d.pop(k)`'s effect on the mapping: remove the key (first occurrence). -/
def removeKey (fs : List (String × Value)) (k : String) : List (String × Value) :=
  match fs with
  | [] => []
  | (k0, v0) :: rest => if k0 = k then rest else (k0, v0) :: removeKey rest k

/-- Python `d[k] = v`: replace the value in place if the key exists, else append. -/
def setKey (fs : List (String × Value)) (k : String) (v : Value) : List (String × Value) :=
  match fs with
  | [] => [(k, v)]
  | (k0, v0) :: rest => if k0 = k then (k0, v) :: rest else (k0, v0) :: setKey rest k v

/-- One element of a Python dict-update sequence (`d.update(seq)`): the element
must be a length-2 sequence; a 2-element list with a string key updates that
key, a 2-character string updates the 1-character key by the 1-character
value, unhashable keys (lists, dicts) raise.  Modelling choice: non-string
hashable keys and mapping-shaped elements are collapsed to `typeError`
(CPython would build non-string keys resp. iterate the mapping's keys; no
claim depends on those inputs since parsed schemas are string-keyed). -/
def pyUpdateSeqElem (d : List (String × Value)) (e : Value) :
    Except Err (List (String × Value)) :=
  match e with
  | .arr [k, w] =>
    match k with
    | .str ks => .ok (setKey d ks w)
    | _ => .error .typeError
  | .arr _ => .error .valueError
  | .str s =>
    match s.toList with
    | [c1, c2] => .ok (setKey d (String.mk [c1]) (.str (String.mk [c2])))
    | _ => .error .valueError
  | _ => .error .typeError

/-- Fold `pyUpdateSeqElem` over an update sequence. -/
def pyUpdateSeq (d : List (String × Value)) : List Value →
    Except Err (List (String × Value))
  | [] => .ok d
  | e :: rest =>
    match pyUpdateSeqElem d e with
    | .error er => .error er
    | .ok d2 => pyUpdateSeq d2 rest

/-- Python `d.update(v)`: a mapping merges key by key (existing keys keep
their position, new keys append); any other value is treated as a sequence
of key-value pairs: the empty string and empty list are no-ops, a non-empty
string always raises `ValueError` (its elements are 1-character strings),
non-iterable scalars raise `TypeError`. -/
def pyDictUpdate (d : List (String × Value)) (v : Value) :
    Except Err (List (String × Value)) :=
  match v with
  | .obj kvs => .ok (kvs.foldl (fun acc p => setKey acc p.1 p.2) d)
  | .str s => if s.isEmpty then .ok d else .error .valueError
  | .arr es => pyUpdateSeq d es
  | _ => .error .typeError

/-- The module-level `_DEFAULT_EXAMPLES` table, in source order. -/
def DEFAULT_EXAMPLES : List (String × Value) :=
  [("string", .str "string"), ("integer", .int 1), ("number", .float 1),
   ("boolean", .bool true), ("array", .arr [])]

/-- The module-level `_DEFAULT_STRING_EXAMPLES` table. -/
def DEFAULT_STRING_EXAMPLES : List (String × String) :=
  [("date", "2020-01-01"), ("date-time", "2020-01-01T01:01:01Z"),
   ("password", "********"), ("byte", "QG1pY2hhZWxncmFoYW1ldmFucw=="),
   ("ipv4", "127.0.0.1"), ("ipv6", "::1")]

/-- Python `_DEFAULT_EXAMPLES[v]` where `v` is an arbitrary value: string keys
are looked up (`KeyError` when absent), lists and dicts are unhashable
(`TypeError`), other scalars are hashable but never keys of the table. -/
def defaultExampleLookup : Value → Except Err Value
  | .str s =>
    match vlookup DEFAULT_EXAMPLES s with
    | some d => .ok d
    | none => .error (.keyError s)
  | .obj _ => .error .typeError
  | .arr _ => .error .typeError
  | _ => .error (.keyError "non-string key")

/-- Python string comparison `a <= b`: lexicographic on code points. -/
def charListLe : List Char → List Char → Bool
  | [], _ => true
  | _ :: _, [] => false
  | a :: as, b :: bs =>
    if a.toNat < b.toNat then true
    else if a.toNat = b.toNat then charListLe as bs
    else false

/-- Python `<=` on strings. -/
def strLe (a b : String) : Bool := charListLe a.toList b.toList

/-- Insert into a `le`-sorted list. -/
def insertLe {α : Type} (le : α → α → Bool) (x : α) : List α → List α
  | [] => [x]
  | y :: ys => if le x y then x :: y :: ys else y :: insertLe le x ys

/-- Insertion sort by a boolean comparison. -/
def sortByLe {α : Type} (le : α → α → Bool) : List α → List α
  | [] => []
  | x :: xs => insertLe le x (sortByLe le xs)

/-- Test whether every element is a string, returning the strings. -/
def allStrings : List Value → Option (List String)
  | [] => some []
  | .str s :: rest => (allStrings rest).map (fun ss => s :: ss)
  | _ => none

/-- Test whether every element is an int, returning the ints. -/
def allInts : List Value → Option (List Int)
  | [] => some []
  | .int n :: rest => (allInts rest).map (fun ns => n :: ns)
  | _ => none

/-- Python `sorted(v)`: a list of at most one element is returned as is
(no comparison happens); longer lists sort when all elements are strings or
all are ints and raise `TypeError` otherwise (dict elements are unorderable;
mixed scalar comparisons are collapsed to `TypeError` as a modelling choice);
`sorted` of a dict sorts its keys, of a string its characters. -/
def pySortedVal : Value → Except Err (List Value)
  | .arr l =>
    if l.length ≤ 1 then .ok l
    else
      match allStrings l with
      | some ss => .ok ((sortByLe strLe ss).map Value.str)
      | none =>
        match allInts l with
        | some ns => .ok ((sortByLe (fun a b => decide (a ≤ b)) ns).map Value.int)
        | none => .error .typeError
  | .obj fs =>
    .ok ((sortByLe strLe (fs.map Prod.fst)).map Value.str)
  | .str s =>
    .ok ((sortByLe (fun a b => decide (a.toNat ≤ b.toNat)) s.toList).map
      (fun c => Value.str (String.mk [c])))
  | _ => .error .typeError

/-- Python `int(x)` on a numeric value: truncation toward zero. -/
def pyTrunc (q : Rat) : Int :=
  if 0 ≤ q.num then q.num / (q.den : Int) else -((-q.num) / (q.den : Int))

/-- Read a value as a Python number: `(isFloat, exact rational value)`.
Python bools are ints; strings, `None`, lists and dicts raise `TypeError`
in arithmetic and comparisons. -/
def asNum : Value → Except Err (Bool × Rat)
  | .int n => .ok (false, (n : Rat))
  | .float q => .ok (true, q)
  | .bool b => .ok (false, if b then 1 else 0)
  | _ => .error .typeError

/-- Python `schema.get(k, d)` for the integer length bounds of the module
(`minItems`, `maxItems`, `minLength`, `maxLength`).  Modelling choice: the
bounds are required to be ints (`typeError` otherwise); CPython would accept
floats in the comparisons but raise later in `range`. -/
def getIntD (fs : List (String × Value)) (k : String) (d : Int) : Except Err Int :=
  match vlookup fs k with
  | none => .ok d
  | some (.int n) => .ok n
  | some _ => .error .typeError

/-- The source's `_get_schema_type`: the raw `type` value when present, else
`"object"` when `properties` is present, else `"array"` when `items` is
present, else nothing. -/
def get_schema_type (fs : List (String × Value)) : Option Value :=
  match vlookup fs "type" with
  | some t => some t
  | none =>
    if hasKey fs "properties" then some (.str "object")
    else if hasKey fs "items" then some (.str "array")
    else none

/-- Python `set(x)` for the `required` value: a list yields its elements, a
string its characters, a dict its keys, absence the empty set; non-iterable
scalars raise `TypeError`. -/
def pyToSet : Option Value → Except Err (List Value)
  | none => .ok []
  | some (.arr l) => .ok l
  | some (.str s) => .ok (s.toList.map (fun c => Value.str (String.mk [c])))
  | some (.obj fs) => .ok (fs.map (fun p => Value.str p.1))
  | some _ => .error .typeError

/-- Membership of a string in a Python set of values (`==` between a string
and a non-string value is `False`). -/
def listContainsStr (l : List Value) (s : String) : Bool :=
  l.any (fun v => match v with | .str t => decide (t = s) | _ => false)

/-- Unescape one JSON-pointer segment (`~1` then `~0`, as `jsonpointer` does). -/
def unescapePart (s : String) : String :=
  (s.replace "~1" "/").replace "~0" "~"

/-- Walk the decoded pointer segments through the document: mappings by key,
sequences by all-digit index; a missing target is the library's
`JsonPointerException`. -/
def ptrWalk : Value → List String → Except Err Value
  | v, [] => .ok v
  | .obj fs, p :: rest =>
    match vlookup fs (unescapePart p) with
    | some v => ptrWalk v rest
    | none => .error .pointerError
  | .arr l, p :: rest =>
    match (unescapePart p).toNat? with
    | some i =>
      match l[i]? with
      | some v => ptrWalk v rest
      | none => .error .pointerError
    | none => .error .pointerError
  | _, _ :: _ => .error .pointerError

/-- The `jsonpointer.resolve_pointer` entry point: the empty pointer is the
whole document, otherwise the pointer must start with `/`. -/
def resolve_pointer (doc : Value) (ptr : String) : Except Err Value :=
  if ptr = "" then .ok doc
  else if ptr.startsWith "/" then ptrWalk doc ((ptr.splitOn "/").tail)
  else .error .pointerError

/-- The source's `resolve_reference`: local `#`-prefixed links resolve through
the pointer and return a (shallow) copy - the identity on values, but a
scalar target would raise (`.copy()` on a scalar is an `AttributeError`);
any other link is `NotImplementedError`. -/
def resolve_reference (top : Value) (link : String) : Except Err Value :=
  if link.startsWith "#" then
    match resolve_pointer top (link.drop 1) with
    | .ok (.obj fs) => .ok (.obj fs)
    | .ok (.arr l) => .ok (.arr l)
    | .ok _ => .error .typeError
    | .error e => .error e
  else .error .notImplemented

mutual

/-- Modelled from the spec: `_merge_mappings` is built on the external
`deepmerge` dependency, which is not part of this repository; the spec
injects it as `deep_merge(base, overlay) -> merged`, right-biased and
recursive on mappings, with every non-mapping situation (scalars, lists,
type conflicts) overridden by the overlay.  `copy.deepcopy` of the overlay
item is the identity on values. -/
def merge_mappings (base nxt : Value) : Value :=
  match base, nxt with
  | .obj bs, .obj ns => .obj (pyMergeFields bs ns)
  | _, n => n
termination_by (3 * sizeOf nxt, 0)

/-- Merge the overlay fields into the base fields, one key at a time. -/
def pyMergeFields (bs : List (String × Value)) (ns : List (String × Value)) :
    List (String × Value) :=
  match ns with
  | [] => bs
  | (k, v) :: rest => pyMergeFields (pySetMerged bs k v) rest
termination_by (3 * sizeOf ns + 2, 0)

/-- Merge one overlay binding into the base fields: an existing key keeps its
position and merges values recursively, a new key appends. -/
def pySetMerged (bs : List (String × Value)) (k : String) (v : Value) :
    List (String × Value) :=
  match bs with
  | [] => [(k, v)]
  | (k0, v0) :: rest =>
    if k0 = k then (k0, merge_mappings v0 v) :: rest
    else (k0, v0) :: pySetMerged rest k v
termination_by (3 * sizeOf v + 1, sizeOf bs)

end

/-- The source's `resolve_combining_schema`.  `oneOf` and `anyOf` shallow-merge
the schema (minus the key) with the first listed variant; `allOf` deep-merges
every listed item into the schema (minus the key); `not` reduces to the empty
schema; otherwise the schema is returned unchanged.  The input must be a
mapping (the source immediately uses `in` / `.copy()` / `.pop`; non-mapping
inputs are collapsed to `typeError` as a modelling choice). -/
def resolve_combining_schema (schema : Value) : Except Err Value :=
  match schema with
  | .obj fs =>
    match vlookup fs "oneOf" with
    | some v =>
      match v with
      | .arr (x :: _) =>
        match pyDictUpdate (removeKey fs "oneOf") x with
        | .ok merged => .ok (.obj merged)
        | .error e => .error e
      | .arr [] => .error .indexError
      | _ => .error .typeError
    | none =>
      match vlookup fs "anyOf" with
      | some v =>
        match v with
        | .arr (x :: _) =>
          match pyDictUpdate (removeKey fs "anyOf") x with
          | .ok merged => .ok (.obj merged)
          | .error e => .error e
        | .arr [] => .error .indexError
        | _ => .error .typeError
      | none =>
        match vlookup fs "allOf" with
        | some v =>
          match v with
          | .arr items => .ok (items.foldl merge_mappings (.obj (removeKey fs "allOf")))
          | _ => .error .typeError
        | none =>
          if hasKey fs "not" then .ok (.obj []) else .ok (.obj fs)
  | _ => .error .typeError

/-- Characters of the cyclic string builder: `example_string[i % len]` for
`i in range(n)`. -/
def cycleChars (cs : List Char) (n : Nat) : List Char :=
  (List.range n).map (fun i => cs.getD (i % cs.length) 'x')

/-- The string branch's canned example:
`_DEFAULT_STRING_EXAMPLES.get(schema.get("format", None), "string")`.
An unhashable `format` value raises; any other non-key falls back. -/
def stringFormatExample (fs : List (String × Value)) : Except Err String :=
  match vlookup fs "format" with
  | some (.str f) => .ok ((DEFAULT_STRING_EXAMPLES.lookup f).getD "string")
  | some (.obj _) => .error .typeError
  | some (.arr _) => .error .typeError
  | _ => .ok "string"

/-- The candidate pool of the array branch of `example_from_schema`:
the five type-default values for the unconstrained `items == {}` schema, the
type-default indexed by `sorted(items["oneOf"])[0]` when `items` is a mapping
declaring `oneOf`, else the single synthesized example of `items`. -/
def arrayExampleItems (ev : Value → Except Err Value) (items : Value) :
    Except Err (List Value) :=
  if items = .obj [] then .ok (DEFAULT_EXAMPLES.map Prod.snd)
  else
    match items with
    | .obj ifs =>
      match vlookup ifs "oneOf" with
      | some ov =>
        match pySortedVal ov with
        | .error e => .error e
        | .ok [] => .error .indexError
        | .ok (x :: _) =>
          match defaultExampleLookup x with
          | .error e => .error e
          | .ok d => .ok [d]
      | none =>
        match ev items with
        | .error e => .error e
        | .ok x => .ok [x]
    | _ =>
      match ev items with
      | .error e => .error e
      | .ok x => .ok [x]

/-- Synthesize each declared property (in declaration order). -/
def evalPropsWith (ev : Value → Except Err Value) :
    List (String × Value) → Except Err (List (String × Value))
  | [] => .ok []
  | (k, v) :: rest =>
    match ev v with
    | .error e => .error e
    | .ok x =>
      match evalPropsWith ev rest with
      | .error e => .error e
      | .ok r => .ok ((k, x) :: r)

/-- The `allOf` loop of `example_from_schema`: synthesize each element and
`dict.update` it into the accumulated example. -/
def evalAllOfWith (ev : Value → Except Err Value) :
    List Value → List (String × Value) → Except Err (List (String × Value))
  | [], acc => .ok acc
  | s :: rest, acc =>
    match ev s with
    | .error e => .error e
    | .ok v =>
      match pyDictUpdate acc v with
      | .error e => .error e
      | .ok acc2 => evalAllOfWith ev rest acc2

/-- The source's `example_from_schema`, with fuel for its recursion.  The
branch order is exactly the source's `if`/`elif` chain; the input must be a
mapping (the source immediately subscripts it). -/
def example_from_schema : Nat → Value → Except Err Value
  | 0, _ => .error .fuelOut
  | fuel + 1, schema =>
    match schema with
    | .obj fs =>
      match vlookup fs "example" with
      | some e => .ok e
      | none =>
      match vlookup fs "oneOf" with
      | some (.arr (x :: _)) => example_from_schema fuel x
      | some (.arr []) => .error .indexError
      | some _ => .error .typeError
      | none =>
      match vlookup fs "anyOf" with
      | some (.arr (x :: _)) => example_from_schema fuel x
      | some (.arr []) => .error .indexError
      | some _ => .error .typeError
      | none =>
      match vlookup fs "allOf" with
      | some (.arr l) =>
        match evalAllOfWith (fun v => example_from_schema fuel v) l [] with
        | .error e => .error e
        | .ok r => .ok (.obj r)
      | some _ => .error .typeError
      | none =>
      match vlookup fs "enum" with
      | some (.arr (x :: _)) => .ok x
      | some (.arr []) => .error .indexError
      | some _ => .error .typeError
      | none =>
      if vlookup fs "type" = none ∧ vlookup fs "properties" = none ∧
          vlookup fs "items" = none then
        .ok (.int 1)
      else if hasKey fs "properties" ∨ vlookup fs "type" = some (.str "object") then
        match vlookup fs "properties" with
        | none => .ok (.obj [])
        | some (.obj ps) =>
          match evalPropsWith (fun v => example_from_schema fuel v) ps with
          | .error e => .error e
          | .ok r => .ok (.obj r)
        | some _ => .error .typeError
      else if hasKey fs "items" ∨ vlookup fs "type" = some (.str "array") then
        match vlookup fs "items" with
        | none => .error (.keyError "items")
        | some items =>
          match getIntD fs "minItems" 0 with
          | .error e => .error e
          | .ok m =>
          match getIntD fs "maxItems" (max m 2) with
          | .error e => .error e
          | .ok mx =>
          if m ≤ mx then
            let gen : Int := if m ≤ 2 then min 2 mx else m
            match arrayExampleItems (fun v => example_from_schema fuel v) items with
            | .error e => .error e
            | .ok exItems =>
              .ok (.arr ((List.range gen.toNat).map
                (fun i => exItems.getD (i % exItems.length) .null)))
          else .error .assertError
      else
        match vlookup fs "type" with
        | none => .error (.keyError "type")
        | some t =>
          if t = .str "string" then
            match stringFormatExample fs with
            | .error e => .error e
            | .ok exs =>
              match getIntD fs "minLength" 0 with
              | .error e => .error e
              | .ok m =>
              match getIntD fs "maxLength" (max m (exs.length : Int)) with
              | .error e => .error e
              | .ok mx =>
              let gen : Int := if m ≤ (exs.length : Int) then min (exs.length : Int) mx else m
              if 0 ≤ m ∧ m ≤ mx then
                if m ≤ (exs.length : Int) ∧ (exs.length : Int) ≤ mx then .ok (.str exs)
                else .ok (.str (String.mk (cycleChars exs.toList gen.toNat)))
              else .error .assertError
          else if t = .str "integer" ∨ t = .str "number" then
            match vlookup fs "minimum", vlookup fs "maximum" with
            | some mn, some mxv =>
              match asNum mn with
              | .error e => .error e
              | .ok (_, a) =>
                match asNum mxv with
                | .error e => .error e
                | .ok (_, b) =>
                  let q := a + (b - a) / 2
                  if t = .str "number" then .ok (.float q) else .ok (.int (pyTrunc q))
            | some mn, none =>
              match asNum mn with
              | .error e => .error e
              | .ok (_, a) =>
                if (1 : Rat) ≤ a then
                  if t = .str "number" then .ok (.float (a + 1)) else .ok (.int (pyTrunc (a + 1)))
                else
                  if t = .str "number" then .ok (.float 1) else .ok (.int 1)
            | none, some mxv =>
              match asNum mxv with
              | .error e => .error e
              | .ok (_, b) =>
                if b ≤ (1 : Rat) then
                  if t = .str "number" then .ok (.float (b - 1)) else .ok (.int (pyTrunc (b - 1)))
                else
                  if t = .str "number" then .ok (.float 1) else .ok (.int 1)
            | none, none =>
              if t = .str "number" then .ok (.float 1) else .ok (.int 1)
          else
            defaultExampleLookup t
    | _ => .error .typeError

/-- The `properties` loop of `traverse_schema`: recurse into each declared
property with the dotted path extended and the required flag looked up. -/
def traversePropsWith
    (tr : Value → String → Bool → Except Err (List (String × Value × Bool)))
    (name : String) (reqSet : List Value) :
    List (String × Value) → Except Err (List (String × Value × Bool))
  | [] => .ok []
  | (k, v) :: rest =>
    match tr v (if name = "" then k else name ++ "." ++ k) (listContainsStr reqSet k) with
    | .error e => .error e
    | .ok ds =>
      match traversePropsWith tr name reqSet rest with
      | .error e => .error e
      | .ok rs => .ok (ds ++ rs)

/-- The source's `traverse_schema`, with fuel for its recursion through
references and combining keywords.  The generator is modelled as the list of
all yielded descriptors; an exception discards the whole run (the source's
generator would deliver the descriptors yielded before the exception, so the
`ok` results are exactly the complete traversals).  The block must be a
mapping, as in the source (`block.keys()` etc.). -/
def traverse_schema : Nat → Value → Value → String → Bool →
    Except Err (List (String × Value × Bool))
  | 0, _, _, _, _ => .error .fuelOut
  | fuel + 1, top, block, name, req =>
    match block with
    | .obj fs =>
      match vlookup fs "$ref" with
      | some (.str link) =>
        match resolve_reference top link with
        | .error e => .error e
        | .ok r => traverse_schema fuel top r name req
      | some _ => .error .typeError
      | none =>
        if hasKey fs "oneOf" ∨ hasKey fs "anyOf" ∨ hasKey fs "allOf" then
          match resolve_combining_schema (.obj fs) with
          | .error e => .error e
          | .ok rc => traverse_schema fuel top rc name false
        else if hasKey fs "not" then .ok [(name, .obj [], req)]
        else if get_schema_type fs = some (.str "object") then
          match pyToSet (vlookup fs "required") with
          | .error e => .error e
          | .ok reqSet =>
            match vlookup fs "properties" with
            | none => .ok (if name ≠ "" then [(name, .obj fs, req)] else [])
            | some (.obj ps) =>
              match traversePropsWith (fun b n r => traverse_schema fuel top b n r)
                  name reqSet ps with
              | .error e => .error e
              | .ok ds => .ok ((if name ≠ "" then [(name, .obj fs, req)] else []) ++ ds)
            | some _ => .error .typeError
        else if get_schema_type fs = some (.str "array") then
          match vlookup fs "items" with
          | none => .error (.keyError "items")
          | some it => traverse_schema fuel top it (name ++ "[]") false
        else if hasKey fs "enum" then .ok [(name, .obj fs, req)]
        else if (get_schema_type fs).isSome then .ok [(name, .obj fs, req)]
        else .ok []
    | _ => .error .typeError

/-- The `properties` loop of `rebuild_references`. -/
def rebuildPropsWith (rb : Value → Except Err Value) :
    List (String × Value) → Except Err (List (String × Value))
  | [] => .ok []
  | (k, v) :: rest =>
    match rb v with
    | .error e => .error e
    | .ok nv =>
      match rebuildPropsWith rb rest with
      | .error e => .error e
      | .ok nr => .ok ((k, nv) :: nr)

/-- The source's `rebuild_references`, with fuel for its recursion through
references and combining keywords.  Branch order is the source's: the
object/array classification is tested before combining keywords and `$ref`. -/
def rebuild_references : Nat → Value → Value → Except Err Value
  | 0, _, _ => .error .fuelOut
  | fuel + 1, top, block =>
    match block with
    | .obj fs =>
      if get_schema_type fs = some (.str "object") then
        match vlookup fs "properties" with
        | none => .ok (.obj fs)
        | some (.obj ps) =>
          match rebuildPropsWith (fun v => rebuild_references fuel top v) ps with
          | .error e => .error e
          | .ok nps => .ok (.obj (setKey fs "properties" (.obj nps)))
        | some _ => .error .typeError
      else if get_schema_type fs = some (.str "array") then
        match vlookup fs "items" with
        | none => .error (.keyError "items")
        | some it =>
          match rebuild_references fuel top it with
          | .error e => .error e
          | .ok ni => .ok (.obj (setKey fs "items" ni))
      else if hasKey fs "oneOf" ∨ hasKey fs "anyOf" ∨ hasKey fs "allOf" then
        match resolve_combining_schema (.obj fs) with
        | .error e => .error e
        | .ok rc => rebuild_references fuel top rc
      else
        match vlookup fs "$ref" with
        | some (.str link) =>
          match resolve_reference top link with
          | .error e => .error e
          | .ok r => rebuild_references fuel top r
        | some _ => .error .typeError
        | none => .ok (.obj fs)
    | _ => .error .typeError

theorem sizeOf_lt_of_vlookup {fs : List (String × Value)} {k : String} {v : Value}
    (h : vlookup fs k = some v) : sizeOf v < sizeOf fs := by
  induction fs with
  | nil => simp [vlookup] at h
  | cons p rest ih =>
    obtain ⟨k0, v0⟩ := p
    unfold vlookup at h
    split at h
    · cases h
      simp_arith
    · have := ih h
      simp_arith
      omega

mutual

/-- The shape `rebuild_references` actually establishes: descending through
the `properties` of object-classified nodes and the `items` of
array-classified nodes, every node classified neither object nor array
carries none of the `$ref`/`oneOf`/`anyOf`/`allOf` keys; object- and
array-classified nodes themselves are not so constrained. -/
def rebuiltInv (v : Value) : Bool :=
  match v with
  | .obj fs =>
    if get_schema_type fs = some (.str "object") then
      match h : vlookup fs "properties" with
      | some (.obj ps) => rebuiltInvFields ps
      | some _ => true
      | none => true
    else if get_schema_type fs = some (.str "array") then
      match h : vlookup fs "items" with
      | some it => rebuiltInv it
      | none => true
    else
      !(hasKey fs "$ref" || hasKey fs "oneOf" || hasKey fs "anyOf" || hasKey fs "allOf")
  | _ => true
termination_by sizeOf v
decreasing_by
  · have h1 := sizeOf_lt_of_vlookup h
    have h2 : sizeOf (Value.obj ps) = 1 + sizeOf ps := by simp
    simp_arith
    omega
  · have h1 := sizeOf_lt_of_vlookup h
    simp_arith
    omega

/-- `rebuiltInv` over the values of a `properties` mapping. -/
def rebuiltInvFields (ps : List (String × Value)) : Bool :=
  match ps with
  | [] => true
  | (_, v) :: rest => rebuiltInv v && rebuiltInvFields rest
termination_by sizeOf ps
decreasing_by
  · simp_arith
  · simp_arith

end

/-- A heap node for the stateful embedding: Python objects with identity.
Scalars are immutable leaves; lists and dicts hold addresses of their
members, so aliasing (for instance through `dict.copy()`) is explicit. -/
inductive HNode where
  | leaf (v : Value) : HNode
  | harr (elems : List Nat) : HNode
  | hobj (fields : List (String × Nat)) : HNode
deriving DecidableEq, Repr

/-- A heap is a list of nodes; an address is an index, allocation appends. -/
abbrev Heap := List HNode

/-- Association-list lookup for address-valued fields. -/
def flookup (fs : List (String × Nat)) (k : String) : Option Nat :=
  match fs with
  | [] => none
  | (k0, v0) :: rest => if k0 = k then some v0 else flookup rest k

/-- Remove a key from address-valued fields (Python `d.pop(k)`). -/
def fremove (fs : List (String × Nat)) (k : String) : List (String × Nat) :=
  match fs with
  | [] => []
  | (k0, v0) :: rest => if k0 = k then rest else (k0, v0) :: fremove rest k

/-- Set a key in address-valued fields (`d[k] = v`): in place or appended. -/
def fset (fs : List (String × Nat)) (k : String) (v : Nat) : List (String × Nat) :=
  match fs with
  | [] => [(k, v)]
  | (k0, v0) :: rest => if k0 = k then (k0, v) :: rest else (k0, v0) :: fset rest k v

/-- Python `merged.update(x)` at heap level: mutates the node at `c` in
place, aliasing the values of `x`.  Mirrors `pyDictUpdate`; non-empty
sequence arguments are collapsed to `valueError` as a modelling choice
(their success cases would also write only at `c`). -/
def hUpdateObj (h : Heap) (c : Nat) (x : Nat) : Except Err Heap :=
  match h[c]? with
  | some (.hobj cf) =>
    match h[x]? with
    | some (.hobj gs) =>
      .ok (h.set c (.hobj (gs.foldl (fun acc p => fset acc p.1 p.2) cf)))
    | some (.leaf (.str s)) => if s.isEmpty then .ok h else .error .valueError
    | some (.harr es) => if es.isEmpty then .ok h else .error .valueError
    | some _ => .error .typeError
    | none => .error .pointerError
  | _ => .error .pointerError

/-- `copy.deepcopy` over a list of element addresses. -/
def deepcopyListWith (dc : Heap → Nat → Except Err (Heap × Nat)) :
    Heap → List Nat → Except Err (Heap × List Nat)
  | h, [] => .ok (h, [])
  | h, a :: rest =>
    match dc h a with
    | .error e => .error e
    | .ok (h2, c) =>
      match deepcopyListWith dc h2 rest with
      | .error e => .error e
      | .ok (h3, cs) => .ok (h3, c :: cs)

/-- `copy.deepcopy` over the fields of a mapping. -/
def deepcopyFieldsWith (dc : Heap → Nat → Except Err (Heap × Nat)) :
    Heap → List (String × Nat) → Except Err (Heap × List (String × Nat))
  | h, [] => .ok (h, [])
  | h, (k, a) :: rest =>
    match dc h a with
    | .error e => .error e
    | .ok (h2, c) =>
      match deepcopyFieldsWith dc h2 rest with
      | .error e => .error e
      | .ok (h3, cs) => .ok (h3, (k, c) :: cs)

/-- Python `copy.deepcopy`: fresh nodes for containers, identity on scalars
(scalars are immutable and CPython returns the same object). -/
def deepcopyH : Nat → Heap → Nat → Except Err (Heap × Nat)
  | 0, _, _ => .error .fuelOut
  | fuel + 1, h, a =>
    match h[a]? with
    | some (.leaf _) => .ok (h, a)
    | some (.harr es) =>
      match deepcopyListWith (fun hh b => deepcopyH fuel hh b) h es with
      | .error e => .error e
      | .ok (h2, cs) => .ok (h2 ++ [.harr cs], h2.length)
    | some (.hobj fsx) =>
      match deepcopyFieldsWith (fun hh b => deepcopyH fuel hh b) h fsx with
      | .error e => .error e
      | .ok (h2, cs) => .ok (h2 ++ [.hobj cs], h2.length)
    | none => .error .pointerError

/-- One merged value in the deep merge: mappings merge recursively, anything
else is overridden by the overlay. -/
def dmValueWith (dm : Heap → Nat → Nat → Except Err (Heap × Nat))
    (h : Heap) (a b : Nat) : Except Err (Heap × Nat) :=
  match h[a]?, h[b]? with
  | some (.hobj _), some (.hobj _) => dm h a b
  | some _, some _ => .ok (h, b)
  | _, _ => .error .pointerError

/-- Merging overlay fields into accumulated fields for the deep merge. -/
def dmFieldsWith (dm : Heap → Nat → Nat → Except Err (Heap × Nat)) :
    Heap → List (String × Nat) → List (String × Nat) →
    Except Err (Heap × List (String × Nat))
  | h, acc, [] => .ok (h, acc)
  | h, acc, (k, b) :: rest =>
    match flookup acc k with
    | none => dmFieldsWith dm h (acc ++ [(k, b)]) rest
    | some a0 =>
      match dmValueWith dm h a0 b with
      | .error e => .error e
      | .ok (h2, m) => dmFieldsWith dm h2 (fset acc k m) rest

/-- Modelled from the spec: the external `deepmerge` dependency at heap
level.  The spec injects `deep_merge(base, overlay) -> merged` as pure,
right-biased and recursive on mappings, so the merged mapping is a fresh
node and no existing address is written. -/
def deepMergeH : Nat → Heap → Nat → Nat → Except Err (Heap × Nat)
  | 0, _, _, _ => .error .fuelOut
  | fuel + 1, h, a, b =>
    match h[a]?, h[b]? with
    | some (.hobj af), some (.hobj bf) =>
      match dmFieldsWith (fun hh x y => deepMergeH fuel hh x y) h af bf with
      | .error e => .error e
      | .ok (h2, mf) => .ok (h2 ++ [.hobj mf], h2.length)
    | some _, some _ => .ok (h, b)
    | _, _ => .error .pointerError

/-- The `allOf` loop of `resolve_combining_schema`:
`merged = deep_merge(merged, deepcopy(item))` over the items. -/
def allOfFoldWith (dc : Heap → Nat → Except Err (Heap × Nat))
    (dm : Heap → Nat → Nat → Except Err (Heap × Nat)) :
    Heap → Nat → List Nat → Except Err (Heap × Nat)
  | h, m, [] => .ok (h, m)
  | h, m, it :: rest =>
    match dc h it with
    | .error e => .error e
    | .ok (h1, ic) =>
      match dm h1 m ic with
      | .error e => .error e
      | .ok (h2, m2) => allOfFoldWith dc dm h2 m2 rest

/-- The source's `resolve_combining_schema` in the stateful embedding.
`schema.copy()` followed by `.pop` is modelled as one allocation of the
shallow copy minus the popped key (child addresses shared with the input);
the `not` branch allocates a fresh empty mapping; the passthrough branch
returns the input address itself (identity, not a copy). -/
def resolve_combining_schemaH (fuel : Nat) (h : Heap) (a : Nat) : Except Err (Heap × Nat) :=
  match h[a]? with
  | some (.hobj fs) =>
    match flookup fs "oneOf" with
    | some va =>
      match (h ++ [HNode.hobj (fremove fs "oneOf")])[va]? with
      | some (.harr (x :: _)) =>
        match hUpdateObj (h ++ [HNode.hobj (fremove fs "oneOf")]) h.length x with
        | .error e => .error e
        | .ok h2 => .ok (h2, h.length)
      | some (.harr []) => .error .indexError
      | some _ => .error .typeError
      | none => .error .pointerError
    | none =>
    match flookup fs "anyOf" with
    | some va =>
      match (h ++ [HNode.hobj (fremove fs "anyOf")])[va]? with
      | some (.harr (x :: _)) =>
        match hUpdateObj (h ++ [HNode.hobj (fremove fs "anyOf")]) h.length x with
        | .error e => .error e
        | .ok h2 => .ok (h2, h.length)
      | some (.harr []) => .error .indexError
      | some _ => .error .typeError
      | none => .error .pointerError
    | none =>
    match flookup fs "allOf" with
    | some va =>
      match (h ++ [HNode.hobj (fremove fs "allOf")])[va]? with
      | some (.harr items) =>
        allOfFoldWith (deepcopyH fuel) (deepMergeH fuel)
          (h ++ [HNode.hobj (fremove fs "allOf")]) h.length items
      | some _ => .error .typeError
      | none => .error .pointerError
    | none =>
      if (flookup fs "not").isSome then .ok (h ++ [HNode.hobj []], h.length)
      else .ok (h, a)
  | some _ => .error .typeError
  | none => .error .pointerError

theorem hasKey_eq_false_iff {fs : List (String × Value)} {k : String} :
    hasKey fs k = false ↔ vlookup fs k = none := by
  unfold hasKey
  cases h : vlookup fs k <;> simp [h]

theorem hasKey_eq_true_iff {fs : List (String × Value)} {k : String} :
    hasKey fs k = true ↔ (vlookup fs k).isSome = true := by
  unfold hasKey
  exact Iff.rfl

theorem vlookup_setKey_self (fs : List (String × Value)) (k : String) (v : Value) :
    vlookup (setKey fs k v) k = some v := by
  induction fs with
  | nil => simp [setKey, vlookup]
  | cons p rest ih =>
    obtain ⟨k0, v0⟩ := p
    unfold setKey
    by_cases hk : k0 = k
    · simp [hk, vlookup]
    · simp [hk, vlookup, ih]

theorem vlookup_setKey_ne (fs : List (String × Value)) (k k' : String) (v : Value)
    (hne : k' ≠ k) : vlookup (setKey fs k v) k' = vlookup fs k' := by
  have hne2 : ¬(k = k') := fun h => hne h.symm
  induction fs with
  | nil => simp [setKey, vlookup, hne2]
  | cons p rest ih =>
    obtain ⟨k0, v0⟩ := p
    unfold setKey
    by_cases hk : k0 = k
    · subst hk
      simp [vlookup, hne2]
    · simp [hk, vlookup, ih]

/-- C5: for every schema of declared type integer or number that has both
minimum and maximum keys and none of the example, enum, composition,
properties or items keys, `example_from_schema` returns exactly
`(minimum + maximum) / 2`, cast to int (truncation) when the declared type
is integer and to float when it is number. -/
theorem c5_numeric_midpoint (fuel : Nat) (fs : List (String × Value)) (t : String)
    (mn mxv : Value) (fa fb : Bool) (a b : Rat)
    (hex : vlookup fs "example" = none) (h1 : vlookup fs "oneOf" = none)
    (h2 : vlookup fs "anyOf" = none) (h3 : vlookup fs "allOf" = none)
    (h4 : vlookup fs "enum" = none) (hpr : vlookup fs "properties" = none)
    (hit : vlookup fs "items" = none) (ht : vlookup fs "type" = some (.str t))
    (htin : t = "integer" ∨ t = "number")
    (hmn : vlookup fs "minimum" = some mn) (hmx : vlookup fs "maximum" = some mxv)
    (han : asNum mn = .ok (fa, a)) (hbn : asNum mxv = .ok (fb, b)) :
    example_from_schema (fuel + 1) (.obj fs) =
      .ok (if t = "number" then .float ((a + b) / 2) else .int (pyTrunc ((a + b) / 2))) := by
  have hkp : hasKey fs "properties" = false := hasKey_eq_false_iff.mpr hpr
  have hki : hasKey fs "items" = false := hasKey_eq_false_iff.mpr hit
  have hmid : a + (b - a) / 2 = (a + b) / 2 := by ring
  rcases htin with h | h <;> subst h <;>
    simp [example_from_schema, hex, h1, h2, h3, h4, hpr, hit, ht, hkp, hki, hmn, hmx,
      han, hbn, hmid]

theorem c5_witness :
    example_from_schema 1 (.obj [("type", .str "integer"), ("minimum", .int 1),
      ("maximum", .int 4)]) = .ok (.int 2) := by
  have h := c5_numeric_midpoint 0
    [("type", .str "integer"), ("minimum", .int 1), ("maximum", .int 4)]
    "integer" (.int 1) (.int 4) false false 1 4 rfl rfl rfl rfl rfl rfl rfl rfl
    (Or.inl rfl) rfl rfl rfl rfl
  rw [h, if_neg (by decide)]
  norm_num [pyTrunc]

/-- C8: for every schema whose declared type is a primitive other than
object, array, string, integer or number, which has a canned default value
in the `_DEFAULT_EXAMPLES` table (that is, boolean), and which has none of
the example, enum, oneOf, anyOf, allOf, properties or items keys,
`example_from_schema` returns that canned default value. -/
theorem c8_default_primitive (fuel : Nat) (fs : List (String × Value)) (t : String)
    (d : Value)
    (hex : vlookup fs "example" = none) (h1 : vlookup fs "oneOf" = none)
    (h2 : vlookup fs "anyOf" = none) (h3 : vlookup fs "allOf" = none)
    (h4 : vlookup fs "enum" = none) (hpr : vlookup fs "properties" = none)
    (hit : vlookup fs "items" = none) (ht : vlookup fs "type" = some (.str t))
    (hto : t ≠ "object") (hta : t ≠ "array") (hts : t ≠ "string")
    (hti : t ≠ "integer") (htn : t ≠ "number")
    (hd : vlookup DEFAULT_EXAMPLES t = some d) :
    example_from_schema (fuel + 1) (.obj fs) = .ok d := by
  have hkp : hasKey fs "properties" = false := hasKey_eq_false_iff.mpr hpr
  have hki : hasKey fs "items" = false := hasKey_eq_false_iff.mpr hit
  simp [example_from_schema, hex, h1, h2, h3, h4, hpr, hit, ht, hkp, hki,
    hto, hta, hts, hti, htn, defaultExampleLookup, hd]

theorem c8_witness :
    example_from_schema 1 (.obj [("type", .str "boolean")]) = .ok (.bool true) :=
  c8_default_primitive 0 [("type", .str "boolean")] "boolean" (.bool true)
    rfl rfl rfl rfl rfl rfl rfl rfl
    (by decide) (by decide) (by decide) (by decide) (by decide) rfl

/-- C1 (counterexample): one application of `resolve_combining_schema` is
neither fully reducing nor idempotent.  For the schema
`oneOf: [anyOf: [empty]]` the result still carries an `anyOf` key, and a
second application changes it to the empty schema. -/
theorem c1_counterexample :
    resolve_combining_schema (.obj [("oneOf", .arr [.obj [("anyOf", .arr [.obj []])]])]) =
      .ok (.obj [("anyOf", .arr [.obj []])]) ∧
    hasKey [("anyOf", Value.arr [.obj []])] "anyOf" = true ∧
    resolve_combining_schema (.obj [("anyOf", .arr [.obj []])]) = .ok (.obj []) ∧
    Value.obj [("anyOf", .arr [.obj []])] ≠ .obj [] := by
  refine ⟨by decide, by decide, by decide, by decide⟩

/-- C1 (amended): `resolve_combining_schema` is the identity on mapping
schemas carrying none of the oneOf, anyOf, allOf and not keys; consequently
applying it twice agrees with applying it once whenever the first
application's result is such a reduced mapping (a `not` schema does reduce
to the empty mapping, which is reduced).  In general a single application
only eliminates the highest-precedence combining construct and its result
may retain combining keys contributed by the merged-in variant, so
unconditional idempotence and full reduction fail. -/
theorem c1_reduced_fixed_point (s : Value) (ts : List (String × Value))
    (hok : resolve_combining_schema s = .ok (.obj ts))
    (h1 : hasKey ts "oneOf" = false) (h2 : hasKey ts "anyOf" = false)
    (h3 : hasKey ts "allOf" = false) (h4 : hasKey ts "not" = false) :
    Except.bind (resolve_combining_schema s) resolve_combining_schema = resolve_combining_schema s := by
  rw [hok]
  show resolve_combining_schema (.obj ts) = .ok (.obj ts)
  rw [hasKey_eq_false_iff] at h1 h2 h3
  simp [resolve_combining_schema, h1, h2, h3, h4]

theorem c1_witness :
    resolve_combining_schema (.obj [("not", .obj [("type", .str "string")])]) = .ok (.obj []) ∧
    Except.bind (resolve_combining_schema (.obj [("not", .obj [("type", .str "string")])]))
        resolve_combining_schema =
      resolve_combining_schema (.obj [("not", .obj [("type", .str "string")])]) :=
  ⟨by decide,
   c1_reduced_fixed_point _ [] (by decide) (by decide) (by decide) (by decide) (by decide)⟩

/-- C3 (counterexample): for an array schema whose `items` declares `oneOf`
with schema mappings as its entries (the well-formed case), the candidate
pool lookup `_DEFAULT_EXAMPLES[sorted(items["oneOf"])[0]]` raises rather
than producing a value: a single mapping entry is an unhashable key, and two
or more mapping entries are unorderable for `sorted`. -/
theorem c3_counterexample :
    example_from_schema 5 (.obj [("items",
        .obj [("oneOf", .arr [.obj [("type", .str "string")]])])]) =
      .error .typeError ∧
    example_from_schema 5 (.obj [("items",
        .obj [("oneOf", .arr [.obj [("type", .str "string")],
          .obj [("type", .str "integer")]])])]) =
      .error .typeError := by
  refine ⟨by decide, by decide⟩

/-- C3 (amended): for an array schema without example whose `items` mapping
declares `oneOf`, the candidate pool is the single value
`_DEFAULT_EXAMPLES[sorted(items["oneOf"])[0]]`, cycled to the target
length; this succeeds only when the sorted first entry is a key of the
type-default table (for instance when the `oneOf` entries are type-name
strings), and for mapping-valued entries the lookup raises instead. -/
theorem c3_items_oneOf_pool (fuel : Nat) (fs ifs : List (String × Value))
    (ov x d : Value) (rest : List Value) (m mx : Int)
    (hex : vlookup fs "example" = none) (h1 : vlookup fs "oneOf" = none)
    (h2 : vlookup fs "anyOf" = none) (h3 : vlookup fs "allOf" = none)
    (h4 : vlookup fs "enum" = none) (hpr : vlookup fs "properties" = none)
    (ht : vlookup fs "type" = none ∨ vlookup fs "type" = some (.str "array"))
    (hit : vlookup fs "items" = some (.obj ifs))
    (hone : vlookup ifs "oneOf" = some ov)
    (hsort : pySortedVal ov = .ok (x :: rest))
    (hdef : defaultExampleLookup x = .ok d)
    (hmi : getIntD fs "minItems" 0 = .ok m)
    (hma : getIntD fs "maxItems" (max m 2) = .ok mx)
    (hmm : m ≤ mx) :
    example_from_schema (fuel + 1) (.obj fs) =
      .ok (.arr (List.replicate (if m ≤ 2 then min 2 mx else m).toNat d)) := by
  have hkp : hasKey fs "properties" = false := hasKey_eq_false_iff.mpr hpr
  have hki : hasKey fs "items" = true := by simp [hasKey, hit]
  have hobj : (vlookup fs "type" = some (.str "object")) = False := by
    rcases ht with h | h <;> rw [h] <;> simp
  have hifs : ifs ≠ [] := by
    intro hh
    rw [hh] at hone
    simp [vlookup] at hone
  have hnee : (Value.obj ifs = Value.obj []) = False := by simp [hifs]
  simp [example_from_schema, hex, h1, h2, h3, h4, hpr, hit, hkp, hki, hobj, hmi, hma,
    hmm, arrayExampleItems, hnee, hone, hsort, hdef, List.getD]
  generalize (if m ≤ 2 then 2 ⊓ mx else m).toNat = n
  simp [Nat.mod_one, List.map_const', List.length_range]

theorem c3_witness :
    example_from_schema 1 (.obj [("items", .obj [("oneOf", .arr [.str "string", .str "integer"])]),
      ("minItems", .int 1), ("maxItems", .int 3)]) = .ok (.arr [.int 1, .int 1]) := by
  have h := c3_items_oneOf_pool 0
    [("items", .obj [("oneOf", .arr [.str "string", .str "integer"])]),
     ("minItems", .int 1), ("maxItems", .int 3)]
    [("oneOf", .arr [.str "string", .str "integer"])]
    (.arr [.str "string", .str "integer"]) (.str "integer") (.int 1) [.str "string"] 1 3
    rfl rfl rfl rfl rfl rfl (Or.inl rfl) rfl rfl (by decide) (by decide) (by decide)
    (by decide) (by decide)
  rw [h]
  norm_num [List.replicate]

/-- C4: for every array schema (items present, type absent or array, none of
the example/enum/composition/properties keys) with integer bounds
`minItems = m` (default 0, nonnegative as JSON Schema requires) and
`maxItems = mx` (default `max m 2`), any list `example_from_schema` returns
has length within `[m, mx]` and additionally at least `min 2 mx` whenever
`m ≤ 2`; when `m > mx` the call fails the `assert` (an assertion error, not
recovered). -/
theorem c4_array_length_bounds (fuel : Nat) (fs : List (String × Value))
    (it : Value) (m mx : Int)
    (hex : vlookup fs "example" = none) (h1 : vlookup fs "oneOf" = none)
    (h2 : vlookup fs "anyOf" = none) (h3 : vlookup fs "allOf" = none)
    (h4 : vlookup fs "enum" = none) (hpr : vlookup fs "properties" = none)
    (ht : vlookup fs "type" = none ∨ vlookup fs "type" = some (.str "array"))
    (hits : vlookup fs "items" = some it)
    (hm0 : 0 ≤ m)
    (hmi : getIntD fs "minItems" 0 = .ok m)
    (hma : getIntD fs "maxItems" (max m 2) = .ok mx) :
    (∀ v, example_from_schema (fuel + 1) (.obj fs) = .ok v →
      ∃ l : List Value, v = .arr l ∧ m ≤ (l.length : Int) ∧ (l.length : Int) ≤ mx ∧
        (m ≤ 2 → min 2 mx ≤ (l.length : Int))) ∧
    (mx < m → example_from_schema (fuel + 1) (.obj fs) = .error .assertError) := by
  have hkp : hasKey fs "properties" = false := hasKey_eq_false_iff.mpr hpr
  have hki : hasKey fs "items" = true := by simp [hasKey, hits]
  have hobj : (vlookup fs "type" = some (.str "object")) = False := by
    rcases ht with h | h <;> rw [h] <;> simp
  constructor
  · intro v hv
    simp only [example_from_schema, hex, h1, h2, h3, h4, hpr, hits, hkp, hki, hobj, hmi,
      hma] at hv
    simp at hv
    by_cases hcmp : m ≤ mx
    · rw [if_pos hcmp] at hv
      have htn : ((if m ≤ 2 then min 2 mx else m).toNat : Int) =
          if m ≤ 2 then min 2 mx else m := by
        rcases le_or_lt m 2 with hm2 | hm2
        · rw [if_pos hm2]
          exact Int.toNat_of_nonneg (le_min (by norm_num) (hm0.trans hcmp))
        · rw [if_neg (not_le.mpr hm2)]
          exact Int.toNat_of_nonneg hm0
      cases harr : arrayExampleItems (fun v => example_from_schema fuel v) it with
      | error e => rw [harr] at hv; simp at hv
      | ok exItems =>
        rw [harr] at hv
        simp only [Except.ok.injEq] at hv
        refine ⟨_, hv.symm, ?_⟩
        simp only [List.length_map, List.length_range]
        rw [htn]
        refine ⟨?_, ?_, fun hm2 => ?_⟩ <;>
          simp only [min_def] <;> split_ifs <;> omega
    · rw [if_neg hcmp] at hv
      simp at hv
  · intro hlt
    have hnc : (m ≤ mx) = False := by
      simp only [eq_iff_iff, iff_false]
      omega
    simp only [example_from_schema, hex, h1, h2, h3, h4, hpr, hits, hkp, hki, hobj, hmi,
      hma]
    simp [hnc]

theorem c4_witness :
    example_from_schema 2 (.obj [("type", .str "array"), ("items", .obj [("type", .str "integer")]),
      ("minItems", .int 1), ("maxItems", .int 5)]) = .ok (.arr [.int 1, .int 1]) ∧
    (∃ l : List Value, Value.arr [.int 1, .int 1] = .arr l ∧ (1 : Int) ≤ (l.length : Int) ∧
      (l.length : Int) ≤ 5 ∧ ((1 : Int) ≤ 2 → min 2 5 ≤ (l.length : Int))) :=
  ⟨by decide,
   (c4_array_length_bounds 1
      [("type", .str "array"), ("items", .obj [("type", .str "integer")]),
       ("minItems", .int 1), ("maxItems", .int 5)]
      (.obj [("type", .str "integer")]) 1 5 rfl rfl rfl rfl rfl rfl (Or.inr rfl) rfl
      (by decide) (by decide) (by decide)).1 _ (by decide)⟩

/-- C9 (counterexample): a schema declaring type array with no items key but
with a properties key makes `example_from_schema` take the object branch and
return a mapping instead of failing with a missing-key error. -/
theorem c9_counterexample :
    example_from_schema 2 (.obj [("type", .str "array"), ("properties", .obj [])]) =
      .ok (.obj []) := by decide

/-- C9 (amended): for every schema declaring type array with no items key
and none of the example, enum, oneOf, anyOf, allOf, not, $ref or properties
keys, both `example_from_schema` and `traverse_schema` fail with the
missing-key error on items; with a properties key present,
`example_from_schema` instead takes the object branch. -/
theorem c9_missing_items (fuel : Nat) (fs : List (String × Value))
    (hex : vlookup fs "example" = none) (h1 : vlookup fs "oneOf" = none)
    (h2 : vlookup fs "anyOf" = none) (h3 : vlookup fs "allOf" = none)
    (h4 : vlookup fs "enum" = none) (hpr : vlookup fs "properties" = none)
    (hnot : vlookup fs "not" = none) (href : vlookup fs "$ref" = none)
    (ht : vlookup fs "type" = some (.str "array"))
    (hit : vlookup fs "items" = none) :
    example_from_schema (fuel + 1) (.obj fs) = .error (.keyError "items") ∧
    ∀ top name req, traverse_schema (fuel + 1) top (.obj fs) name req =
      .error (.keyError "items") := by
  have hkp : hasKey fs "properties" = false := hasKey_eq_false_iff.mpr hpr
  have hki : hasKey fs "items" = false := hasKey_eq_false_iff.mpr hit
  have hk1 : hasKey fs "oneOf" = false := hasKey_eq_false_iff.mpr h1
  have hk2 : hasKey fs "anyOf" = false := hasKey_eq_false_iff.mpr h2
  have hk3 : hasKey fs "allOf" = false := hasKey_eq_false_iff.mpr h3
  have hkn : hasKey fs "not" = false := hasKey_eq_false_iff.mpr hnot
  constructor
  · simp [example_from_schema, hex, h1, h2, h3, h4, hpr, hit, ht, hkp, hki]
  · intro top name req
    simp [traverse_schema, href, hk1, hk2, hk3, hkn, get_schema_type, ht, hit]

theorem c9_witness :
    example_from_schema 1 (.obj [("type", .str "array")]) = .error (.keyError "items") ∧
    traverse_schema 1 (.obj []) (.obj [("type", .str "array")]) "x" true =
      .error (.keyError "items") :=
  ⟨(c9_missing_items 0 [("type", .str "array")]
      rfl rfl rfl rfl rfl rfl rfl rfl rfl rfl).1,
   (c9_missing_items 0 [("type", .str "array")]
      rfl rfl rfl rfl rfl rfl rfl rfl rfl rfl).2 _ _ _⟩

theorem evalAllOfWith_error_of_str (ev : Value → Except Err Value)
    (t : String) (hne : t ≠ "") :
    ∀ (l : List Value) (acc : List (String × Value)) (elem : Value),
      elem ∈ l → ev elem = .ok (.str t) →
      ∃ e, evalAllOfWith ev l acc = .error e := by
  intro l
  induction l with
  | nil => intro acc elem hmem; cases hmem
  | cons x rest ih =>
    intro acc elem hmem hev
    rcases List.mem_cons.mp hmem with rfl | hmem2
    · refine ⟨.valueError, ?_⟩
      have hemp : t.isEmpty = false := by
        by_cases h : t.isEmpty
        · exact absurd ((String.isEmpty_iff t).mp h) hne
        · simpa using h
      simp [evalAllOfWith, hev, pyDictUpdate, hemp]
    · cases hx : ev x with
      | error e => exact ⟨e, by simp [evalAllOfWith, hx]⟩
      | ok v =>
        cases hup : pyDictUpdate acc v with
        | error e => exact ⟨e, by simp [evalAllOfWith, hx, hup]⟩
        | ok acc2 =>
          obtain ⟨e, he⟩ := ih acc2 elem hmem2 hev
          exact ⟨e, by simp [evalAllOfWith, hx, hup, he]⟩

/-- C10 (counterexample): an `allOf` element can synthesize to a non-mapping
value without making the key-union step fail: an element of type string with
maxLength 0 synthesizes to the empty string, which `dict.update` accepts as
an empty update sequence, so the call returns the empty mapping. -/
theorem c10_counterexample :
    example_from_schema 1 (.obj [("type", .str "string"), ("maxLength", .int 0)]) =
      .ok (.str "") ∧
    example_from_schema 2 (.obj [("allOf", .arr [.obj [("type", .str "string"),
      ("maxLength", .int 0)]])]) = .ok (.obj []) := by
  refine ⟨by decide, by decide⟩

/-- C10 (amended): for every schema with an allOf key and no example key, if
some allOf element synthesizes to a non-empty string - a non-mapping value
that is not a valid dictionary update sequence - the shallow key-union step
fails rather than returning a value (elements synthesizing to empty strings
or empty lists are no-ops, and sequences of key-value pairs are accepted, so
those non-mapping values do not fail). -/
theorem c10_allOf_nonmapping_string (fuel : Nat) (fs : List (String × Value))
    (l : List Value) (elem : Value) (t : String)
    (hex : vlookup fs "example" = none) (h1 : vlookup fs "oneOf" = none)
    (h2 : vlookup fs "anyOf" = none)
    (hall : vlookup fs "allOf" = some (.arr l))
    (hmem : elem ∈ l) (hev : example_from_schema fuel elem = .ok (.str t))
    (hne : t ≠ "") :
    ∃ e, example_from_schema (fuel + 1) (.obj fs) = .error e := by
  obtain ⟨e, he⟩ :=
    evalAllOfWith_error_of_str (fun v => example_from_schema fuel v) t hne l [] elem hmem hev
  exact ⟨e, by simp [example_from_schema, hex, h1, h2, hall, he]⟩

theorem c10_witness :
    example_from_schema 1 (.obj [("type", .str "string")]) = .ok (.str "string") ∧
    (∃ e, example_from_schema 2 (.obj [("allOf", .arr [.obj [("type", .str "string")]])]) =
      .error e) :=
  ⟨by decide,
   c10_allOf_nonmapping_string 1 [("allOf", .arr [.obj [("type", .str "string")]])]
     [.obj [("type", .str "string")]] (.obj [("type", .str "string")]) "string"
     rfl rfl rfl rfl (by decide) (by decide) (by decide)⟩

/-- A descriptor whose schema mapping carries none of the reference and
composition keys at top level. -/
def cleanDescriptor (d : String × Value × Bool) : Bool :=
  match d.2.1 with
  | .obj fs => !(hasKey fs "$ref" || hasKey fs "oneOf" || hasKey fs "anyOf" ||
      hasKey fs "allOf" || hasKey fs "not")
  | _ => true

theorem traversePropsWith_clean
    (tr : Value → String → Bool → Except Err (List (String × Value × Bool)))
    (htr : ∀ b n r ds, tr b n r = .ok ds → ∀ d ∈ ds, cleanDescriptor d = true) :
    ∀ (ps : List (String × Value)) (name : String) (reqSet : List Value) ds,
      traversePropsWith tr name reqSet ps = .ok ds →
      ∀ d ∈ ds, cleanDescriptor d = true := by
  intro ps
  induction ps with
  | nil =>
    intro name reqSet ds hok d hd
    simp [traversePropsWith] at hok
    subst hok
    cases hd
  | cons p rest ih =>
    obtain ⟨k, v⟩ := p
    intro name reqSet ds hok d hd
    unfold traversePropsWith at hok
    split at hok
    · exact absurd hok (by simp)
    case _ ds2 heq1 =>
      split at hok
      · exact absurd hok (by simp)
      case _ rs heq2 =>
        simp only [Except.ok.injEq] at hok
        subst hok
        rcases List.mem_append.mp hd with hd2 | hd2
        · exact htr _ _ _ _ heq1 d hd2
        · exact ih _ _ _ heq2 d hd2

/-- C2: every descriptor yielded by a complete run of `traverse_schema` has a
schema mapping carrying none of the $ref, oneOf, anyOf, allOf and not keys:
traversal resolves references and composition keywords before yielding. -/
theorem c2_traverse_yields_resolved :
    ∀ (fuel : Nat) (top block : Value) (name : String) (req : Bool) ds,
      traverse_schema fuel top block name req = .ok ds →
      ∀ d ∈ ds, cleanDescriptor d = true := by
  intro fuel
  induction fuel with
  | zero =>
    intro top block name req ds hok
    simp [traverse_schema] at hok
  | succ fuel ih =>
    intro top block name req ds hok
    cases block with
    | obj fs =>
      simp only [traverse_schema] at hok
      split at hok
      -- $ref present with a string link
      case _ link heqref =>
        split at hok
        · exact absurd hok (by simp)
        case _ r heq2 => exact ih top r name req ds hok
      -- $ref present with a non-string link
      case _ => exact absurd hok (by simp)
      -- no $ref: the if chain
      case _ heqref =>
        split at hok
        · -- a combining keyword is present
          split at hok
          · exact absurd hok (by simp)
          case _ rc heq2 => exact ih top rc name false ds hok
        case _ hcomb =>
          simp only [not_or, Bool.not_eq_true] at hcomb
          obtain ⟨hb1, hb2, hb3⟩ := hcomb
          split at hok
          case _ hnot =>
            -- not present: yield the empty schema
            simp only [Except.ok.injEq] at hok
            subst hok
            intro d hd
            rcases List.mem_singleton.mp hd with rfl
            simp [cleanDescriptor, hasKey, vlookup]
          case _ hnot =>
            simp only [Bool.not_eq_true] at hnot
            have hclean : cleanDescriptor (name, .obj fs, req) = true := by
              simp [cleanDescriptor, hasKey, heqref,
                hasKey_eq_false_iff.mp hb1, hasKey_eq_false_iff.mp hb2,
                hasKey_eq_false_iff.mp hb3, hasKey_eq_false_iff.mp hnot]
            split at hok
            · -- object classification
              split at hok
              · exact absurd hok (by simp)
              case _ reqSet heqrs =>
                split at hok
                · -- no properties
                  simp only [Except.ok.injEq] at hok
                  subst hok
                  intro d hd
                  by_cases hname : name = "" <;> simp [hname] at hd
                  rcases hd with rfl
                  exact hclean
                case _ ps heqps =>
                  split at hok
                  · exact absurd hok (by simp)
                  case _ ds2 heqds2 =>
                    simp only [Except.ok.injEq] at hok
                    subst hok
                    intro d hd
                    rcases List.mem_append.mp hd with hd2 | hd2
                    · by_cases hname : name = "" <;> simp [hname] at hd2
                      rcases hd2 with rfl
                      exact hclean
                    · exact traversePropsWith_clean _
                        (fun b n r ds h => ih top b n r ds h) ps name reqSet ds2
                        heqds2 d hd2
                case _ => exact absurd hok (by simp)
            · split at hok
              · -- array classification
                split at hok
                · exact absurd hok (by simp)
                case _ it heqit => exact ih top it (name ++ "[]") false ds hok
              · split at hok
                · -- enum leaf
                  simp only [Except.ok.injEq] at hok
                  subst hok
                  intro d hd
                  rcases List.mem_singleton.mp hd with rfl
                  exact hclean
                · split at hok
                  · -- typed leaf
                    simp only [Except.ok.injEq] at hok
                    subst hok
                    intro d hd
                    rcases List.mem_singleton.mp hd with rfl
                    exact hclean
                  · -- untyped schema: yields nothing
                    simp only [Except.ok.injEq] at hok
                    subst hok
                    intro d hd
                    cases hd
    | null => simp [traverse_schema] at hok
    | bool b => simp [traverse_schema] at hok
    | int n => simp [traverse_schema] at hok
    | float q => simp [traverse_schema] at hok
    | str s => simp [traverse_schema] at hok
    | arr l => simp [traverse_schema] at hok

theorem c2_witness :
    traverse_schema 3 (.obj []) (.obj [("type", .str "string")]) "x" false =
      .ok [("x", .obj [("type", .str "string")], false)] ∧
    cleanDescriptor ("x", .obj [("type", .str "string")], false) = true :=
  ⟨by decide,
   c2_traverse_yields_resolved 3 (.obj []) (.obj [("type", .str "string")]) "x" false
     [("x", .obj [("type", .str "string")], false)] (by decide) _ (by decide)⟩

/-- C6 (counterexample): `rebuild_references` tests the object/array
classification before combining keywords and `$ref`, so a schema with an
explicit object type and an `allOf` key (and no properties) is returned
unchanged, `allOf` included. -/
theorem c6_counterexample :
    rebuild_references 5 (.obj []) (.obj [("type", .str "object"),
      ("allOf", .arr [.obj [("properties", .obj [("a", .obj [("type", .str "string")])])]])]) =
      .ok (.obj [("type", .str "object"),
        ("allOf", .arr [.obj [("properties", .obj [("a", .obj [("type", .str "string")])])]])]) ∧
    hasKey [("type", Value.str "object"),
      ("allOf", Value.arr [.obj [("properties", .obj [("a", .obj [("type", .str "string")])])]])]
      "allOf" = true := by
  refine ⟨by decide, by decide⟩

theorem get_schema_type_setKey_properties (fs : List (String × Value)) (v : Value)
    (h : get_schema_type fs = some (.str "object")) :
    get_schema_type (setKey fs "properties" v) = some (.str "object") := by
  unfold get_schema_type at h ⊢
  cases htyp : vlookup fs "type" with
  | some t =>
    rw [htyp] at h
    rw [vlookup_setKey_ne fs "properties" "type" v (by decide), htyp]
    exact h
  | none =>
    rw [htyp] at h
    rw [vlookup_setKey_ne fs "properties" "type" v (by decide), htyp]
    simp only [hasKey, vlookup_setKey_self, Option.isSome_some, if_true]

theorem get_schema_type_setKey_items (fs : List (String × Value)) (v : Value)
    (h : get_schema_type fs = some (.str "array")) :
    get_schema_type (setKey fs "items" v) = some (.str "array") := by
  unfold get_schema_type at h ⊢
  rw [vlookup_setKey_ne fs "items" "type" v (by decide)]
  simp only [hasKey, vlookup_setKey_ne fs "items" "properties" v (by decide),
    vlookup_setKey_self, Option.isSome_some]
  cases htyp : vlookup fs "type" with
  | some t =>
    simp only [htyp] at h ⊢
    exact h
  | none =>
    simp only [htyp] at h ⊢
    by_cases hp : (vlookup fs "properties").isSome = true
    · simp only [hasKey, hp, if_true] at h
      exact absurd h (by simp)
    · simp only [hasKey, hp, if_false] at h ⊢
      simp

theorem rebuildPropsWith_inv (rb : Value → Except Err Value)
    (hrb : ∀ v r, rb v = .ok r → rebuiltInv r = true) :
    ∀ (ps : List (String × Value)) nps, rebuildPropsWith rb ps = .ok nps →
      rebuiltInvFields nps = true := by
  intro ps
  induction ps with
  | nil =>
    intro nps hok
    simp [rebuildPropsWith] at hok
    subst hok
    simp [rebuiltInvFields]
  | cons p rest ih =>
    obtain ⟨k, v⟩ := p
    intro nps hok
    unfold rebuildPropsWith at hok
    split at hok
    · exact absurd hok (by simp)
    case _ nv heq1 =>
      split at hok
      · exact absurd hok (by simp)
      case _ nr heq2 =>
        simp only [Except.ok.injEq] at hok
        subst hok
        simp [rebuiltInvFields, hrb v nv heq1, ih nr heq2]

/-- C6 (amended): every mapping returned by `rebuild_references` satisfies
`rebuiltInv`: along descent through the properties of object-classified
nodes and the items of array-classified nodes, any node classified neither
object nor array carries no top-level $ref, oneOf, anyOf or allOf key.
Object- and array-classified nodes themselves may retain such keys (see the
counterexample), so the original any-depth claim fails. -/
theorem c6_rebuild_establishes_inv :
    ∀ (fuel : Nat) (top block r : Value),
      rebuild_references fuel top block = .ok r → rebuiltInv r = true := by
  intro fuel
  induction fuel with
  | zero => intro top block r hok; simp [rebuild_references] at hok
  | succ fuel ih =>
    intro top block r hok
    cases block with
    | obj fs =>
      simp only [rebuild_references] at hok
      split at hok
      case _ hobj =>
        split at hok
        case _ heqp =>
          simp only [Except.ok.injEq] at hok
          subst hok
          rw [rebuiltInv, if_pos hobj]
          split
          case _ ps hh => rw [heqp] at hh; cases hh
          case _ hh => rfl
          case _ hh => rfl
        case _ ps heqp =>
          split at hok
          · exact absurd hok (by simp)
          case _ nps heqnps =>
            simp only [Except.ok.injEq] at hok
            subst hok
            rw [rebuiltInv, if_pos (get_schema_type_setKey_properties fs (.obj nps) hobj)]
            split
            case _ ps2 hh =>
              rw [vlookup_setKey_self] at hh
              obtain rfl : nps = ps2 := by simpa using hh
              exact rebuildPropsWith_inv _ (fun v r h => ih top v r h) ps nps heqnps
            case _ hh => rfl
            case _ hh => rfl
        case _ => exact absurd hok (by simp)
      case _ hnobj =>
        split at hok
        case _ harr =>
          split at hok
          · exact absurd hok (by simp)
          case _ it heqit =>
            split at hok
            · exact absurd hok (by simp)
            case _ ni heqni =>
              simp only [Except.ok.injEq] at hok
              subst hok
              rw [rebuiltInv,
                if_neg (by simp [get_schema_type_setKey_items fs ni harr]),
                if_pos (get_schema_type_setKey_items fs ni harr)]
              split
              case _ it2 hh =>
                rw [vlookup_setKey_self] at hh
                obtain rfl : ni = it2 := by simpa using hh
                exact ih top it ni heqni
              case _ hh =>
                rw [vlookup_setKey_self] at hh
        case _ hnarr =>
          split at hok
          case _ hcomb =>
            split at hok
            · exact absurd hok (by simp)
            case _ rc heqrc => exact ih top rc r hok
          case _ hcomb =>
            simp only [not_or, Bool.not_eq_true] at hcomb
            obtain ⟨hb1, hb2, hb3⟩ := hcomb
            split at hok
            case _ link heqref =>
              split at hok
              · exact absurd hok (by simp)
              case _ rs heq2 => exact ih top rs r hok
            case _ => exact absurd hok (by simp)
            case _ heqref =>
              simp only [Except.ok.injEq] at hok
              subst hok
              rw [rebuiltInv, if_neg hnobj, if_neg hnarr]
              simp [hasKey, heqref, hasKey_eq_false_iff.mp hb1,
                hasKey_eq_false_iff.mp hb2, hasKey_eq_false_iff.mp hb3]
    | null => simp [rebuild_references] at hok
    | bool b => simp [rebuild_references] at hok
    | int n => simp [rebuild_references] at hok
    | float q => simp [rebuild_references] at hok
    | str s => simp [rebuild_references] at hok
    | arr l => simp [rebuild_references] at hok

theorem c6_witness :
    rebuild_references 3 (.obj [])
      (.obj [("type", .str "object"),
        ("properties", .obj [("a", .obj [("type", .str "string")])])]) =
      .ok (.obj [("type", .str "object"),
        ("properties", .obj [("a", .obj [("type", .str "string")])])]) ∧
    rebuiltInv (.obj [("type", .str "object"),
      ("properties", .obj [("a", .obj [("type", .str "string")])])]) = true :=
  ⟨by decide,
   c6_rebuild_establishes_inv 3 (.obj [])
     (.obj [("type", .str "object"),
       ("properties", .obj [("a", .obj [("type", .str "string")])])])
     (.obj [("type", .str "object"),
       ("properties", .obj [("a", .obj [("type", .str "string")])])])
     (by decide)⟩

/-- The frame relation of the stateful embedding: every address of the old
heap still holds the same node. -/
def heapPreserves (h h2 : Heap) : Prop :=
  h.length ≤ h2.length ∧ ∀ b, b < h.length → h2[b]? = h[b]?

theorem heapPreserves_refl (h : Heap) : heapPreserves h h :=
  ⟨le_rfl, fun _ _ => rfl⟩

theorem heapPreserves_trans {h h2 h3 : Heap}
    (p1 : heapPreserves h h2) (p2 : heapPreserves h2 h3) : heapPreserves h h3 :=
  ⟨p1.1.trans p2.1, fun b hb => (p2.2 b (lt_of_lt_of_le hb p1.1)).trans (p1.2 b hb)⟩

theorem heapPreserves_append (h : Heap) (l : List HNode) :
    heapPreserves h (h ++ l) :=
  ⟨by simp, fun b hb => List.getElem?_append_left hb⟩

theorem hUpdateObj_frame {h : Heap} {c x : Nat} {h2 : Heap}
    (hok : hUpdateObj h c x = .ok h2) :
    h2.length = h.length ∧ ∀ b, b ≠ c → h2[b]? = h[b]? := by
  unfold hUpdateObj at hok
  split at hok
  case _ cf heqc =>
    split at hok
    case _ gs heqx =>
      simp only [Except.ok.injEq] at hok
      subst hok
      exact ⟨List.length_set h c _, fun b hb => List.getElem?_set_ne (fun hh => hb hh.symm)⟩
    case _ s heqx =>
      split at hok
      · simp only [Except.ok.injEq] at hok
        subst hok
        exact ⟨rfl, fun _ _ => rfl⟩
      · exact absurd hok (by simp)
    case _ es heqx =>
      split at hok
      · simp only [Except.ok.injEq] at hok
        subst hok
        exact ⟨rfl, fun _ _ => rfl⟩
      · exact absurd hok (by simp)
    case _ => exact absurd hok (by simp)
    case _ => exact absurd hok (by simp)
  case _ => exact absurd hok (by simp)

theorem deepcopyListWith_preserves (dc : Heap → Nat → Except Err (Heap × Nat))
    (hdc : ∀ h a h2 c, dc h a = .ok (h2, c) → heapPreserves h h2) :
    ∀ (l : List Nat) (h : Heap) (h2 : Heap) (cs : List Nat),
      deepcopyListWith dc h l = .ok (h2, cs) → heapPreserves h h2 := by
  intro l
  induction l with
  | nil =>
    intro h h2 cs hok
    simp [deepcopyListWith] at hok
    rw [hok.1]
    exact heapPreserves_refl _
  | cons a rest ih =>
    intro h h2 cs hok
    unfold deepcopyListWith at hok
    split at hok
    · exact absurd hok (by simp)
    case _ hm cm heq1 =>
      split at hok
      · exact absurd hok (by simp)
      case _ hr cr heq2 =>
        simp only [Except.ok.injEq, Prod.mk.injEq] at hok
        rw [← hok.1]
        exact heapPreserves_trans (hdc _ _ _ _ heq1) (ih _ _ _ heq2)

theorem deepcopyFieldsWith_preserves (dc : Heap → Nat → Except Err (Heap × Nat))
    (hdc : ∀ h a h2 c, dc h a = .ok (h2, c) → heapPreserves h h2) :
    ∀ (l : List (String × Nat)) (h : Heap) (h2 : Heap) (cs : List (String × Nat)),
      deepcopyFieldsWith dc h l = .ok (h2, cs) → heapPreserves h h2 := by
  intro l
  induction l with
  | nil =>
    intro h h2 cs hok
    simp [deepcopyFieldsWith] at hok
    rw [hok.1]
    exact heapPreserves_refl _
  | cons p rest ih =>
    obtain ⟨k, a⟩ := p
    intro h h2 cs hok
    unfold deepcopyFieldsWith at hok
    split at hok
    · exact absurd hok (by simp)
    case _ hm cm heq1 =>
      split at hok
      · exact absurd hok (by simp)
      case _ hr cr heq2 =>
        simp only [Except.ok.injEq, Prod.mk.injEq] at hok
        rw [← hok.1]
        exact heapPreserves_trans (hdc _ _ _ _ heq1) (ih _ _ _ heq2)

theorem deepcopyH_preserves :
    ∀ (fuel : Nat) (h : Heap) (a : Nat) (h2 : Heap) (c : Nat),
      deepcopyH fuel h a = .ok (h2, c) → heapPreserves h h2 := by
  intro fuel
  induction fuel with
  | zero => intro h a h2 c hok; simp [deepcopyH] at hok
  | succ fuel ih =>
    intro h a h2 c hok
    unfold deepcopyH at hok
    split at hok
    · simp only [Except.ok.injEq, Prod.mk.injEq] at hok
      rw [← hok.1]
      exact heapPreserves_refl _
    case _ es heqn =>
      split at hok
      · exact absurd hok (by simp)
      case _ hm cs heq1 =>
        simp only [Except.ok.injEq, Prod.mk.injEq] at hok
        rw [← hok.1]
        exact heapPreserves_trans
          (deepcopyListWith_preserves _ (fun hh aa h3 cc hq => ih hh aa h3 cc hq) es h hm cs heq1)
          (heapPreserves_append _ _)
    case _ fsx heqn =>
      split at hok
      · exact absurd hok (by simp)
      case _ hm cs heq1 =>
        simp only [Except.ok.injEq, Prod.mk.injEq] at hok
        rw [← hok.1]
        exact heapPreserves_trans
          (deepcopyFieldsWith_preserves _ (fun hh aa h3 cc hq => ih hh aa h3 cc hq) fsx h hm cs heq1)
          (heapPreserves_append _ _)
    · exact absurd hok (by simp)

theorem dmValueWith_preserves (dm : Heap → Nat → Nat → Except Err (Heap × Nat))
    (hdm : ∀ h a b h2 c, dm h a b = .ok (h2, c) → heapPreserves h h2) :
    ∀ (h : Heap) (a b : Nat) (h2 : Heap) (c : Nat),
      dmValueWith dm h a b = .ok (h2, c) → heapPreserves h h2 := by
  intro h a b h2 c hok
  unfold dmValueWith at hok
  split at hok
  · exact hdm _ _ _ _ _ hok
  · simp only [Except.ok.injEq, Prod.mk.injEq] at hok
    rw [← hok.1]
    exact heapPreserves_refl _
  · exact absurd hok (by simp)

theorem dmFieldsWith_preserves (dm : Heap → Nat → Nat → Except Err (Heap × Nat))
    (hdm : ∀ h a b h2 c, dm h a b = .ok (h2, c) → heapPreserves h h2) :
    ∀ (ns : List (String × Nat)) (h : Heap) (acc : List (String × Nat))
      (h2 : Heap) (mf : List (String × Nat)),
      dmFieldsWith dm h acc ns = .ok (h2, mf) → heapPreserves h h2 := by
  intro ns
  induction ns with
  | nil =>
    intro h acc h2 mf hok
    simp [dmFieldsWith] at hok
    rw [hok.1]
    exact heapPreserves_refl _
  | cons p rest ih =>
    obtain ⟨k, b⟩ := p
    intro h acc h2 mf hok
    unfold dmFieldsWith at hok
    split at hok
    · exact ih _ _ _ _ hok
    case _ a0 heqa =>
      split at hok
      · exact absurd hok (by simp)
      case _ hm m heq1 =>
        exact heapPreserves_trans (dmValueWith_preserves _ hdm _ _ _ _ _ heq1)
          (ih _ _ _ _ hok)

theorem deepMergeH_preserves :
    ∀ (fuel : Nat) (h : Heap) (a b : Nat) (h2 : Heap) (c : Nat),
      deepMergeH fuel h a b = .ok (h2, c) → heapPreserves h h2 := by
  intro fuel
  induction fuel with
  | zero => intro h a b h2 c hok; simp [deepMergeH] at hok
  | succ fuel ih =>
    intro h a b h2 c hok
    unfold deepMergeH at hok
    split at hok
    case _ af bf heqa heqb =>
      split at hok
      · exact absurd hok (by simp)
      case _ hm mf heq1 =>
        simp only [Except.ok.injEq, Prod.mk.injEq] at hok
        rw [← hok.1]
        exact heapPreserves_trans
          (dmFieldsWith_preserves _ (fun hh aa bb h3 cc hq => ih hh aa bb h3 cc hq)
            bf h af hm mf heq1)
          (heapPreserves_append _ _)
    · simp only [Except.ok.injEq, Prod.mk.injEq] at hok
      rw [← hok.1]
      exact heapPreserves_refl _
    · exact absurd hok (by simp)

theorem allOfFoldWith_preserves (dc : Heap → Nat → Except Err (Heap × Nat))
    (dm : Heap → Nat → Nat → Except Err (Heap × Nat))
    (hdc : ∀ h a h2 c, dc h a = .ok (h2, c) → heapPreserves h h2)
    (hdm : ∀ h a b h2 c, dm h a b = .ok (h2, c) → heapPreserves h h2) :
    ∀ (items : List Nat) (h : Heap) (m : Nat) (h2 : Heap) (r : Nat),
      allOfFoldWith dc dm h m items = .ok (h2, r) → heapPreserves h h2 := by
  intro items
  induction items with
  | nil =>
    intro h m h2 r hok
    simp [allOfFoldWith] at hok
    rw [hok.1]
    exact heapPreserves_refl _
  | cons it rest ih =>
    intro h m h2 r hok
    unfold allOfFoldWith at hok
    split at hok
    · exact absurd hok (by simp)
    case _ h1 ic heq1 =>
      split at hok
      · exact absurd hok (by simp)
      case _ hm m2 heq2 =>
        exact heapPreserves_trans (hdc _ _ _ _ heq1)
          (heapPreserves_trans (hdm _ _ _ _ _ heq2) (ih _ _ _ _ hok))

/-- C7: `resolve_combining_schema` never writes to an address that existed in
the heap before the call, in any branch: the oneOf/anyOf branches mutate only
the freshly allocated shallow copy, the allOf branch deep-copies each item
and feeds it to the (spec-injected, pure) deep merge which only allocates,
the not branch allocates a fresh empty mapping, and the passthrough branch
returns the input address untouched.  So the input schema - including nested
mappings shared with the shallow copy - is unchanged. -/
theorem c7_combiner_preserves_heap (fuel : Nat) (h : Heap) (a : Nat)
    (h2 : Heap) (r : Nat)
    (hok : resolve_combining_schemaH fuel h a = .ok (h2, r)) :
    h.length ≤ h2.length ∧ ∀ b, b < h.length → h2[b]? = h[b]? := by
  unfold resolve_combining_schemaH at hok
  split at hok
  case _ fs heqa =>
    split at hok
    case _ va heqv =>
      split at hok
      all_goals try exact absurd hok (by simp)
      case _ x xs heqn =>
        split at hok
        · exact absurd hok (by simp)
        case _ h3 hequ =>
          simp only [Except.ok.injEq, Prod.mk.injEq] at hok
          obtain ⟨rfl, rfl⟩ := hok
          obtain ⟨hlen, hne⟩ := hUpdateObj_frame hequ
          constructor
          · rw [hlen]; simp
          · intro b hb
            rw [hne b (by omega)]
            exact List.getElem?_append_left hb
    case _ heqv1 =>
      split at hok
      case _ va heqv2 =>
        split at hok
        all_goals try exact absurd hok (by simp)
        case _ x xs heqn =>
          split at hok
          · exact absurd hok (by simp)
          case _ h3 hequ =>
            simp only [Except.ok.injEq, Prod.mk.injEq] at hok
            obtain ⟨rfl, rfl⟩ := hok
            obtain ⟨hlen, hne⟩ := hUpdateObj_frame hequ
            constructor
            · rw [hlen]; simp
            · intro b hb
              rw [hne b (by omega)]
              exact List.getElem?_append_left hb
      case _ heqv2 =>
        split at hok
        case _ va heqv3 =>
          split at hok
          all_goals try exact absurd hok (by simp)
          case _ items heqn =>
            have hp := allOfFoldWith_preserves (deepcopyH fuel) (deepMergeH fuel)
              (fun hh aa h3 cc hq => deepcopyH_preserves fuel hh aa h3 cc hq)
              (fun hh aa bb h3 cc hq => deepMergeH_preserves fuel hh aa bb h3 cc hq)
              items _ h.length h2 r hok
            exact heapPreserves_trans (heapPreserves_append h _) hp
        case _ heqv3 =>
          split at hok
          · simp only [Except.ok.injEq, Prod.mk.injEq] at hok
            obtain ⟨rfl, rfl⟩ := hok
            exact heapPreserves_append h _
          · simp only [Except.ok.injEq, Prod.mk.injEq] at hok
            obtain ⟨rfl, rfl⟩ := hok
            exact heapPreserves_refl h
  case _ => exact absurd hok (by simp)
  case _ => exact absurd hok (by simp)

/-- The input heap of the C7 witness: the schema at address 6 is
`allOf: [a mapping with properties], properties: ...`, whose nested
`properties` mapping at address 2 is shared with the shallow copy. -/
def c7HeapIn : Heap :=
  [.leaf (.int 1), .leaf (.int 2), .hobj [("a", 0)], .hobj [("b", 1)],
   .hobj [("properties", 3)], .harr [4], .hobj [("allOf", 5), ("properties", 2)]]

/-- The output heap of the C7 witness: all seven input addresses unchanged,
the merged result freshly allocated at address 11. -/
def c7HeapOut : Heap :=
  [.leaf (.int 1), .leaf (.int 2), .hobj [("a", 0)], .hobj [("b", 1)],
   .hobj [("properties", 3)], .harr [4], .hobj [("allOf", 5), ("properties", 2)],
   .hobj [("properties", 2)], .hobj [("b", 1)], .hobj [("properties", 8)],
   .hobj [("a", 0), ("b", 1)], .hobj [("properties", 10)]]

theorem c7_witness :
    resolve_combining_schemaH 10 c7HeapIn 6 = .ok (c7HeapOut, 11) ∧
    (c7HeapIn.length ≤ c7HeapOut.length ∧
      ∀ b, b < c7HeapIn.length → c7HeapOut[b]? = c7HeapIn[b]?) :=
  ⟨by decide, c7_combiner_preserves_heap 10 c7HeapIn 6 c7HeapOut 11 (by decide)⟩
